import Mathlib

/-!
Shallow embedding of the Git-C repository core: the content-addressed
object store (object.c, file.c, string.c, compression.c), the pack
decoder (packfile.c), the pkt-line wire framing (pktline.c) and the
clone driver (clone.c).  Bytes are modelled as `Nat` values and byte
sequences as `List Nat`; the external collaborators (OpenSSL SHA-1,
zlib, the filesystem, libcurl) are explicit oracle parameters.
-/

namespace GitC

/-- On-disk state touched by the object store: the directories created
so far and a map from file paths (ASCII byte lists) to file contents. -/
structure Store where
  dirs : List (List Nat)
  files : List (List Nat × List Nat)
  deriving Repr, DecidableEq

/-- Overwrite-or-create update of the path-to-contents map, modelling
write_file (file.c) with mode "wb". -/
def fs_write : List (List Nat × List Nat) → List Nat → List Nat → List (List Nat × List Nat)
  | [], k, v => [(k, v)]
  | (k', v') :: t, k, v => if k' = k then (k, v) :: t else (k', v') :: fs_write t k v

/-- Whole-file lookup, modelling read_file (file.c). -/
def fs_read : List (List Nat × List Nat) → List Nat → Option (List Nat)
  | [], _ => none
  | (k', v') :: t, k => if k' = k then some v' else fs_read t k

/-- One lowercase hex digit byte, as produced by sprintf "%02x" inside
hex_to_string (string.c). -/
def hex_digit (n : Nat) : Nat := if n < 10 then 48 + n else 87 + n

/-- hex_to_string (string.c): every byte becomes two lowercase hex digit
bytes, so the output is twice as long as the input. -/
def hex_to_string (buf : List Nat) : List Nat :=
  buf.flatMap (fun b => [hex_digit (b / 16), hex_digit (b % 16)])

/-- ASCII bytes of ".git/objects" (GIT_OBJECTS_DIR in constants.h). -/
def git_objects_dir : List Nat := [46, 103, 105, 116, 47, 111, 98, 106, 101, 99, 116, 115]

/-- object_path (file.c): a 40-byte hex identifier maps to the directory
".git/objects/xx" and the file ".git/objects/xx/" followed by the 38
remaining digits; any other identifier length is rejected. -/
def object_path (sha_hex : List Nat) : Option (List Nat × List Nat) :=
  if sha_hex.length = 40 then
    some (git_objects_dir ++ 47 :: sha_hex.take 2,
          git_objects_dir ++ 47 :: sha_hex.take 2 ++ 47 :: sha_hex.drop 2)
  else none

/-- Outcome of one zlib uncompress call, the three cases distinguished
by decompress_data (compression.c): success, output buffer too small
(Z_BUF_ERROR), any other decoder failure. -/
inductive UncompressResult where
  | ok (out : List Nat)
  | bufError
  | dataError
  deriving Repr, DecidableEq

/-- Model of zlib uncompress: the decoding semantics are an oracle
`decode`; a valid stream succeeds exactly when the destination buffer
can hold the decoded bytes. -/
def uncompress (decode : List Nat → Option (List Nat)) (c : List Nat)
    (destSize : Nat) : UncompressResult :=
  match decode c with
  | none => .dataError
  | some d => if d.length ≤ destSize then .ok d else .bufError

/-- Retry loop of decompress_data (compression.c), doubling the buffer
on Z_BUF_ERROR.  The C loop is unbounded; `fuel` counts iterations and
`none` means the bound was reached before the loop exited. -/
def decompress_loop (decode : List Nat → Option (List Nat)) (c : List Nat) :
    Nat → Nat → Option (Option (List Nat))
  | _, 0 => none
  | destSize, fuel + 1 =>
    match uncompress decode c destSize with
    | .ok d => some (some d)
    | .dataError => some none
    | .bufError => decompress_loop decode c (destSize * 2) fuel

/-- decompress_data (compression.c): start from a buffer of 8 times the
compressed size, then run the doubling retry loop. -/
def decompress_data (decode : List Nat → Option (List Nat)) (c : List Nat)
    (fuel : Nat) : Option (Option (List Nat)) :=
  decompress_loop decode c (c.length * 8) fuel

/-- compress_data (compression.c): rejects empty input, otherwise defers
to the zlib encoder oracle `comp`. -/
def compress_data (comp : List Nat → List Nat) (d : List Nat) : Option (List Nat) :=
  if d = [] then none else some (comp d)

/-- External collaborators: the OpenSSL SHA-1 digest, the zlib encoder,
the zlib decoding semantics shared by decompress_data, and the streaming
inflate of packfile.c which also reports how many input bytes a stream
consumed. -/
structure Ext where
  sha1 : List Nat → List Nat
  comp : List Nat → List Nat
  decode : List Nat → Option (List Nat)
  inflate : List Nat → Nat → Option (List Nat × Nat)

/-- object_write (object.c): SHA-1 the framed bytes, derive the sharded
path, create the directory if missing, deflate, write the file.  Returns
the 40-byte hex identifier and the new on-disk state, or `none` and the
state reached so far on failure. -/
def object_write (E : Ext) (data : List Nat) (s : Store) : Option (List Nat) × Store :=
  let str_hash := hex_to_string (E.sha1 data)
  match object_path str_hash with
  | none => (none, s)
  | some (abs_dir, abs_file) =>
    let s1 : Store := if abs_dir ∈ s.dirs then s else ⟨abs_dir :: s.dirs, s.files⟩
    match compress_data E.comp data with
    | none => (none, s1)
    | some compressed => (some str_hash, ⟨s1.dirs, fs_write s1.files abs_file compressed⟩)

/-- read_git_blob_file (file.c): resolve the object path and slurp the
compressed file bytes. -/
def read_git_blob_file (sha_hex : List Nat) (s : Store) : Option (List Nat) :=
  match object_path sha_hex with
  | none => none
  | some (_, abs_file) => fs_read s.files abs_file

/-- object_read (object.c): slurp, inflate, and split the decompressed
bytes at the first NUL.  Returns the full decompressed sequence `raw`
together with the body view starting after the first NUL, and fails when
no NUL is present.  Kind word and declared size are not examined. -/
def object_read (E : Ext) (fuel : Nat) (sha_hex : List Nat) (s : Store) :
    Option (List Nat × List Nat) :=
  match read_git_blob_file sha_hex s with
  | none => none
  | some compressed =>
    match decompress_data E.decode compressed fuel with
    | some (some raw) =>
      if 0 ∈ raw then some (raw, (raw.dropWhile (fun b => b != 0)).tail)
      else none
    | _ => none

/-- Decimal ASCII digits of a number, as produced by snprintf "%zu". -/
def dec_bytes (n : Nat) : List Nat :=
  if h : n < 10 then [48 + n] else dec_bytes (n / 10) ++ [48 + n % 10]
decreasing_by exact Nat.div_lt_self (by omega) (by omega)

/-- Canonical framing "<kind> <size>\0<body>" as built by
write_pack_object (packfile.c) and create_blob (object.c): the kind
word, a space (32), the decimal body length, a NUL (0), the body. -/
def frame_object (kind body : List Nat) : List Nat :=
  kind ++ 32 :: (dec_bytes body.length ++ 0 :: body)

/-- ASCII kind word "blob" (type_name in packfile.c). -/
def kind_blob : List Nat := [98, 108, 111, 98]

/-- ASCII kind word "tree" (type_name in packfile.c). -/
def kind_tree : List Nat := [116, 114, 101, 101]

/-- ASCII kind word "commit" (type_name in packfile.c). -/
def kind_commit : List Nat := [99, 111, 109, 109, 105, 116]

/-- ASCII kind word "tag" (type_name in packfile.c). -/
def kind_tag : List Nat := [116, 97, 103]

/-- Base-kind extraction in the REF_DELTA branch of packfile_parse
(packfile.c): memchr for a space within the first 32 raw bytes, then
copy at most 15 kind bytes from the front. -/
def parse_base_type (raw : List Nat) : Option (List Nat) :=
  if 32 ∈ raw.take 32 then
    some (raw.take (min ((raw.take 32).takeWhile (fun b => b != 32)).length 15))
  else none

/-- Inner loop of read_var_int (packfile.c): each byte contributes its
low seven bits at the current shift; bit 7 is the continuation flag.
The cursor is represented by the remaining suffix of the stream; like
the C loop, running out of bytes mid-varint returns the value so far. -/
def read_var_int_go : List Nat → Nat → Nat → Nat × List Nat
  | [], _, value => (value, [])
  | b :: rest, shift, value =>
    let value := value ||| ((b &&& 0x7F) <<< shift)
    if b &&& 0x80 = 0 then (value, rest) else read_var_int_go rest (shift + 7) value

/-- read_var_int (packfile.c): little-endian 7-bit varint used for the
source and target sizes at the start of a delta stream. -/
def read_var_int (d : List Nat) : Nat × List Nat :=
  read_var_int_go d 0 0

/-- One optional byte of a COPY instruction (apply_delta, packfile.c):
consumed and shifted into place only when the corresponding command bit
is set; running out of delta bytes is corrupt. -/
def copy_field (delta : List Nat) (want : Bool) (shift : Nat) : Option (Nat × List Nat) :=
  if want then
    match delta with
    | [] => none
    | b :: rest => some (b <<< shift, rest)
  else some (0, delta)

/-- Offset and raw size fields of a COPY instruction (apply_delta,
packfile.c): command bits 0..3 select offset bytes, bits 4..6 select
size bytes, all little-endian, missing bytes defaulting to zero.  The
zero-size reinterpretation happens at the use site, as in the C. -/
def read_copy_args (cmd : Nat) (delta : List Nat) : Option (Nat × Nat × List Nat) := do
  let (o0, d0) ← copy_field delta (cmd &&& 0x01 ≠ 0) 0
  let (o1, d1) ← copy_field d0 (cmd &&& 0x02 ≠ 0) 8
  let (o2, d2) ← copy_field d1 (cmd &&& 0x04 ≠ 0) 16
  let (o3, d3) ← copy_field d2 (cmd &&& 0x08 ≠ 0) 24
  let (s0, d4) ← copy_field d3 (cmd &&& 0x10 ≠ 0) 0
  let (s1, d5) ← copy_field d4 (cmd &&& 0x20 ≠ 0) 8
  let (s2, d6) ← copy_field d5 (cmd &&& 0x40 ≠ 0) 16
  return (o0 ||| o1 ||| o2 ||| o3, s0 ||| s1 ||| s2, d6)

theorem copy_field_length {d : List Nat} {w : Bool} {sh v : Nat} {d' : List Nat}
    (h : copy_field d w sh = some (v, d')) : d'.length ≤ d.length := by
  unfold copy_field at h
  split at h
  · cases d with
    | nil => simp at h
    | cons b rest =>
      simp only [Option.some.injEq, Prod.mk.injEq] at h
      rw [← h.2]
      simp [List.length_cons]
  · simp only [Option.some.injEq, Prod.mk.injEq] at h
    rw [← h.2]

theorem read_copy_args_length {cmd : Nat} {delta : List Nat} {o s : Nat} {d' : List Nat}
    (h : read_copy_args cmd delta = some (o, s, d')) : d'.length ≤ delta.length := by
  simp only [read_copy_args, bind, Option.bind_eq_some, pure, Option.some.injEq,
    Prod.mk.injEq] at h
  obtain ⟨⟨o0, d0⟩, h0, ⟨o1, d1⟩, h1, ⟨o2, d2⟩, h2, ⟨o3, d3⟩, h3,
          ⟨s0, d4⟩, h4, ⟨s1, d5⟩, h5, ⟨s2, d6⟩, h6, _, _, hd⟩ := h
  have l0 := copy_field_length h0
  have l1 := copy_field_length h1
  have l2 := copy_field_length h2
  have l3 := copy_field_length h3
  have l4 := copy_field_length h4
  have l5 := copy_field_length h5
  have l6 := copy_field_length h6
  rw [← hd]
  dsimp only at l0 l1 l2 l3 l4 l5 l6 ⊢
  omega

/-- Instruction loop of apply_delta (packfile.c).  `tgt` is the declared
target size, `acc` the bytes written so far (so `acc.length` is rpos);
`none` is the corrupt exit. -/
def apply_delta_go (base : List Nat) (tgt : Nat) : List Nat → List Nat → Option (List Nat)
  | [], acc => some acc
  | cmd :: delta, acc =>
    if cmd &&& 0x80 ≠ 0 then
      match h : read_copy_args cmd delta with
      | none => none
      | some (offset, size0, d6) =>
        let size := if size0 = 0 then 0x10000 else size0
        if offset + size > base.length ∨ acc.length + size > tgt then none
        else apply_delta_go base tgt d6 (acc ++ (base.drop offset).take size)
    else if cmd > 0 then
      if delta.length < cmd ∨ acc.length + cmd > tgt then none
      else apply_delta_go base tgt (delta.drop cmd) (acc ++ delta.take cmd)
    else apply_delta_go base tgt delta acc
  termination_by d _ => d.length
  decreasing_by
  · have := read_copy_args_length h
    simp_wf
    omega
  · simp_wf
    have := List.length_drop cmd delta
    omega
  · simp_wf

/-- apply_delta (packfile.c): read the source and target size varints
(the source size is discarded by the code), then run the instruction
loop starting from an empty result. -/
def apply_delta (base delta : List Nat) : Option (List Nat) :=
  let (_, d1) := read_var_int delta
  let (tgt_size, d2) := read_var_int d1
  apply_delta_go base tgt_size d2 []

/-- Instrumented copy of the apply_delta instruction loop that also
records, for every COPY instruction executed, the assembled offset and
the raw size field (before the zero-means-0x10000 reinterpretation).
Used to state the read-bounds property of delta application. -/
def apply_delta_go_copies (base : List Nat) (tgt : Nat) :
    List Nat → List Nat → List (Nat × Nat) → Option (List Nat × List (Nat × Nat))
  | [], acc, cps => some (acc, cps)
  | cmd :: delta, acc, cps =>
    if cmd &&& 0x80 ≠ 0 then
      match h : read_copy_args cmd delta with
      | none => none
      | some (offset, size0, d6) =>
        let size := if size0 = 0 then 0x10000 else size0
        if offset + size > base.length ∨ acc.length + size > tgt then none
        else apply_delta_go_copies base tgt d6 (acc ++ (base.drop offset).take size)
          (cps ++ [(offset, size0)])
    else if cmd > 0 then
      if delta.length < cmd ∨ acc.length + cmd > tgt then none
      else apply_delta_go_copies base tgt (delta.drop cmd) (acc ++ delta.take cmd) cps
    else apply_delta_go_copies base tgt delta acc cps
  termination_by d _ _ => d.length
  decreasing_by
  · have := read_copy_args_length h
    simp_wf
    omega
  · simp_wf
    have := List.length_drop cmd delta
    omega
  · simp_wf

/-- ASCII bytes of the pack magic "PACK" (packfile_parse, packfile.c). -/
def packMagic : List Nat := [80, 65, 67, 75]

/-- read_uint32_be (packfile.c): big-endian 32-bit read of the first
four bytes of the given suffix. -/
def read_uint32_be (p : List Nat) : Nat :=
  (p.getD 0 0 <<< 24) ||| (p.getD 1 0 <<< 16) ||| (p.getD 2 0 <<< 8) ||| p.getD 3 0

/-- Continuation loop of read_type_and_size (packfile.c): while bit 7 of
the previous byte is set, the next byte contributes its low seven bits;
running out of input is a truncated-header error. -/
def read_size_loop : List Nat → Nat → Nat → Option (Nat × List Nat)
  | [], _, _ => none
  | b :: rest, shift, size =>
    let size := size ||| ((b &&& 0x7F) <<< shift)
    if b &&& 0x80 = 0 then some (size, rest) else read_size_loop rest (shift + 7) size

/-- read_type_and_size (packfile.c): first byte carries the 3-bit kind
code in bits 6..4 and the low 4 size bits; bit 7 is continuation. -/
def read_type_and_size (d : List Nat) : Option (Nat × Nat × List Nat) :=
  match d with
  | [] => none
  | b :: rest =>
    let ty := (b >>> 4) &&& 0x07
    let size := b &&& 0x0F
    if b &&& 0x80 = 0 then some (ty, size, rest)
    else
      match read_size_loop rest 4 size with
      | none => none
      | some (size, rest) => some (ty, size, rest)

/-- type_name (packfile.c): kind code to ASCII kind word, `none` for
anything outside 1..4. -/
def type_name (t : Nat) : Option (List Nat) :=
  if t = 1 then some kind_commit
  else if t = 2 then some kind_tree
  else if t = 3 then some kind_blob
  else if t = 4 then some kind_tag
  else none

/-- write_pack_object (packfile.c): frame `body_size` bytes of `body`
with the kind word and the decimal of `body_size`, then object_write. -/
def write_pack_object (E : Ext) (ty body : List Nat) (body_size : Nat) (s : Store) :
    Option (List Nat) × Store :=
  object_write E (ty ++ 32 :: (dec_bytes body_size ++ 0 :: body.take body_size)) s

/-- Per-object loop of packfile_parse (packfile.c).  The cursor is the
remaining suffix of the pack image; `rfuel` bounds the decompress retry
loop inside object_read.  Returns the exit code and the object store. -/
def parse_objects (E : Ext) (rfuel : Nat) : Nat → List Nat → Store → Nat × Store
  | 0, _, s => (0, s)
  | count + 1, d, s =>
    match read_type_and_size d with
    | none => (1, s)
    | some (ty, size, d1) =>
      if ty = 7 ∧ d1.length < 20 then (1, s)
      else
        let base_sha_bin := d1.take 20
        let d2 := if ty = 7 then d1.drop 20 else d1
        match E.inflate d2 size with
        | none => (1, s)
        | some (body, consumed) =>
          let d3 := d2.drop consumed
          if 1 ≤ ty ∧ ty ≤ 4 then
            match type_name ty with
            | none => (1, s)
            | some tyname =>
              match write_pack_object E tyname body size s with
              | (none, s1) => (1, s1)
              | (some _, s1) => parse_objects E rfuel count d3 s1
          else if ty = 7 then
            match object_read E rfuel (hex_to_string base_sha_bin) s with
            | none => (1, s)
            | some (raw, bbody) =>
              match parse_base_type raw with
              | none => (1, s)
              | some base_ty =>
                match apply_delta bbody body with
                | none => (1, s)
                | some result =>
                  match write_pack_object E base_ty result result.length s with
                  | (none, s1) => (1, s1)
                  | (some _, s1) => parse_objects E rfuel count d3 s1
          else (1, s)

/-- packfile_parse (packfile.c): validate the 12-byte header (magic
"PACK", version 2), then process the declared number of objects. -/
def packfile_parse (E : Ext) (rfuel : Nat) (data : List Nat) (s : Store) : Nat × Store :=
  if data.length < 12 ∨ data.take 4 ≠ packMagic then (1, s)
  else if read_uint32_be (data.drop 4) ≠ 2 then (1, s)
  else parse_objects E rfuel (read_uint32_be (data.drop 8)) (data.drop 12) s

/-- Value of one ASCII hex digit, as classified by hex4_to_int
(pktline.c). -/
def hex_digit_val (c : Nat) : Option Nat :=
  if 48 ≤ c ∧ c ≤ 57 then some (c - 48)
  else if 97 ≤ c ∧ c ≤ 102 then some (c - 97 + 10)
  else if 65 ≤ c ∧ c ≤ 70 then some (c - 65 + 10)
  else none

/-- hex4_to_int (pktline.c): four ASCII hex digits to a number, `none`
(the C -1) when a character is not hex. -/
def hex4_to_int (l : List Nat) : Option Nat :=
  match l with
  | [a, b, c, d] => do
    let va ← hex_digit_val a
    let vb ← hex_digit_val b
    let vc ← hex_digit_val c
    let vd ← hex_digit_val d
    return ((va * 16 + vb) * 16 + vc) * 16 + vd
  | _ => none

/-- Scan loop of pktline_parse_head (pktline.c): walk pkt-lines, set the
flush flag at "0000", and return the first 40 payload bytes of the first
line after a flush. -/
def parse_head_loop (d : List Nat) (seen : Bool) : Option (List Nat) :=
  if h4 : 4 ≤ d.length then
    match hex4_to_int (d.take 4) with
    | none => none
    | some n =>
      if hz : n = 0 then parse_head_loop (d.drop 4) true
      else if hb : n < 4 ∨ d.length < n then none
      else if seen then
        if n - 4 < 40 then none else some ((d.drop 4).take 40)
      else parse_head_loop (d.drop n) seen
  else none
  termination_by d.length
  decreasing_by
  · simp_wf; omega
  · simp_wf; omega

/-- pktline_parse_head (pktline.c). -/
def pktline_parse_head (data : List Nat) : Option (List Nat) :=
  parse_head_loop data false

/-- ASCII bytes of "0032want " (pktline_build_want, pktline.c). -/
def want_head : List Nat := [48, 48, 51, 50, 119, 97, 110, 116, 32]

/-- ASCII bytes of "00000009done" followed by the final newline
(pktline_build_want, pktline.c). -/
def want_tail : List Nat := [48, 48, 48, 48, 48, 48, 48, 57, 100, 111, 110, 101, 10]

/-- pktline_build_want (pktline.c): snprintf "0032want %.40s\n" followed
by the flush and the done line; the reported length is always 63. -/
def pktline_build_want (sha : List Nat) : List Nat × Nat :=
  (want_head ++ ((sha.takeWhile (fun b => b != 0)).take 40 ++ 10 :: want_tail), 63)

/-- Side-band scan loop of pktline_strip_sideband (pktline.c): walk
pkt-lines, skip flushes, append channel-1 payloads (channel byte
stripped), stop at a malformed prefix or truncated line. -/
def strip_loop (d : List Nat) (out : List Nat) : List Nat :=
  if h4 : 4 ≤ d.length then
    match hex4_to_int (d.take 4) with
    | none => out
    | some n =>
      if hz : n = 0 then strip_loop (d.drop 4) out
      else if hb : n < 4 ∨ d.length < n then out
      else
        let out := if 5 < n ∧ d.getD 4 0 = 1 then out ++ (d.drop 5).take (n - 5) else out
        strip_loop (d.drop n) out
  else out
  termination_by d.length
  decreasing_by
  · simp_wf; omega
  · simp_wf; omega

/-- Fallback scan of pktline_strip_sideband (pktline.c): the suffix from
the first occurrence of "PACK", if any. -/
def find_pack : List Nat → Option (List Nat)
  | [] => none
  | b :: t => if (b :: t).take 4 = packMagic then some (b :: t) else find_pack t

/-- pktline_strip_sideband (pktline.c): channel-1 data if any was
collected, otherwise the raw suffix from "PACK", otherwise failure. -/
def pktline_strip_sideband (data : List Nat) : Option (List Nat) :=
  let out := strip_loop data []
  if out.length > 0 then some out else find_pack data

theorem length_dropWhile_le_gitc (p : Nat → Bool) (l : List Nat) :
    (l.dropWhile p).length ≤ l.length := by
  induction l with
  | nil => simp
  | cons b t ih =>
    simp only [List.dropWhile]
    split
    · simp only [List.length_cons]
      omega
    · simp

/-- ASCII bytes of "tree " (get_tree_sha, clone.c). -/
def tree_space : List Nat := [116, 114, 101, 101, 32]

/-- get_tree_sha (clone.c): read the commit, require a body of at least
45 bytes starting with "tree ", and return the 40 hex tree digits. -/
def get_tree_sha (E : Ext) (rfuel : Nat) (commit_sha : List Nat) (s : Store) :
    Option (List Nat) :=
  match object_read E rfuel commit_sha s with
  | none => none
  | some (_, body) =>
    if body.length < 45 ∨ body.take 5 ≠ tree_space then none
    else some ((body.drop 5).take 40)

/-- ASCII bytes of the directory mode "40000" (checkout_tree, clone.c). -/
def mode_dir : List Nat := [52, 48, 48, 48, 48]

/-- Entry loop of checkout_tree (clone.c): parse mode up to the space,
name up to the NUL, then the 20 raw digest bytes.  A parse shortfall is
a silent loop break (exit code 0), exactly as in the C.  Directory
entries recurse through `recur`; file entries read the blob and write it
into the working tree map.  Directory creation is modelled as always
succeeding. -/
def checkout_entries
    (recur : List Nat → List Nat → List (List Nat × List Nat) → Nat × List (List Nat × List Nat))
    (E : Ext) (rfuel : Nat) (s : Store) :
    List Nat → List Nat → List (List Nat × List Nat) → Nat × List (List Nat × List Nat)
  | entries, dir, w =>
    if he : entries = [] then (0, w)
    else if 32 ∉ entries then (0, w)
    else
      let mode := entries.takeWhile (fun b => b != 32)
      let rest1 := (entries.dropWhile (fun b => b != 32)).tail
      if 0 ∉ rest1 then (0, w)
      else
        let name := rest1.takeWhile (fun b => b != 0)
        let rest2 := (rest1.dropWhile (fun b => b != 0)).tail
        if rest2.length < 20 then (0, w)
        else
          let sha_hex := hex_to_string (rest2.take 20)
          let path := dir ++ 47 :: name
          if mode = mode_dir then
            match recur sha_hex path w with
            | (0, w1) => checkout_entries recur E rfuel s (rest2.drop 20) dir w1
            | (_, w1) => (1, w1)
          else
            match object_read E rfuel sha_hex s with
            | none => (1, w)
            | some (_, bbody) =>
              checkout_entries recur E rfuel s (rest2.drop 20) dir (fs_write w path bbody)
  termination_by entries _ _ => entries.length
  decreasing_by
  all_goals
    simp_wf
    have h1 := length_dropWhile_le_gitc (fun b => b != 32) entries
    have h2 := List.length_tail (entries.dropWhile (fun b => b != 32))
    have h3 := length_dropWhile_le_gitc (fun b => b != 0)
      ((entries.dropWhile (fun b => b != 32)).tail)
    have h4 := List.length_tail
      (((entries.dropWhile (fun b => b != 32)).tail).dropWhile (fun b => b != 0))
    have h5 := List.length_drop 20
      ((((entries.dropWhile (fun b => b != 32)).tail).dropWhile (fun b => b != 0)).tail)
    have h6 : entries.length ≠ 0 := by
      intro h0
      exact he (List.eq_nil_of_length_eq_zero h0)
    omega

/-- checkout_tree (clone.c): read the tree object and walk its entries,
recursing on subtrees with one unit of fuel fewer (the C recursion is
bounded only by the object graph). -/
def checkout_tree (E : Ext) (rfuel : Nat) (s : Store) :
    Nat → List Nat → List Nat → List (List Nat × List Nat) → Nat × List (List Nat × List Nat)
  | 0, _, _, w => (1, w)
  | cfuel + 1, tree_sha, dir, w =>
    match object_read E rfuel tree_sha s with
    | none => (1, w)
    | some (_, body) =>
      checkout_entries (fun sha p w1 => checkout_tree E rfuel s cfuel sha p w1)
        E rfuel s body dir w

/-- Results of the external collaborators consumed by clone_repo
(clone.c): mkdir, getcwd and the two chdir calls, init_git, and the two
HTTP exchanges (libcurl), each with its failure mode. -/
structure CloneEnv where
  mkdir_ok : Bool
  getcwd_ok : Bool
  chdir_ok : Bool
  init_ok : Bool
  refs_resp : Option (List Nat)
  pack_resp : Option (List Nat)
  chdir_back_ok : Bool

/-- clone_repo (clone.c): create the target directory, chdir into it,
init, discover HEAD, fetch and strip the pack, decode it into the
store, check out HEAD's tree, and chdir back.  Returns the exit code,
the working directory at return time, the object store, and the
working-tree files written by checkout. -/
def clone_repo (E : Ext) (env : CloneEnv) (rfuel cfuel : Nat) (dir cwd0 : List Nat)
    (s : Store) : Nat × List Nat × Store × List (List Nat × List Nat) :=
  if ¬env.mkdir_ok then (1, cwd0, s, [])
  else if ¬env.getcwd_ok then (1, cwd0, s, [])
  else if ¬env.chdir_ok then (1, cwd0, s, [])
  else
    let cwd := dir
    if ¬env.init_ok then (1, cwd, s, [])
    else
      match env.refs_resp with
      | none => (1, cwd, s, [])
      | some refs =>
        match pktline_parse_head refs with
        | none => (1, cwd, s, [])
        | some head_sha =>
          let _want := pktline_build_want head_sha
          match env.pack_resp with
          | none => (1, cwd, s, [])
          | some resp =>
            match pktline_strip_sideband resp with
            | none => (1, cwd, s, [])
            | some pack =>
              match packfile_parse E rfuel pack s with
              | (code, s1) =>
                if code ≠ 0 then (1, cwd, s1, [])
                else
                  match get_tree_sha E rfuel head_sha s1 with
                  | none => (1, cwd, s1, [])
                  | some tree_sha =>
                    match checkout_tree E rfuel s1 cfuel tree_sha [46] [] with
                    | (0, w) =>
                      if env.chdir_back_ok then (0, cwd0, s1, w) else (1, cwd, s1, w)
                    | (_, w) => (1, cwd, s1, w)

/-! Concrete oracle instances used by the witness theorems. -/

/-- A trivial external-collaborator instance for witnesses that never
reach the oracles. -/
def toyExt : Ext := ⟨fun _ => [], fun d => d, fun _ => none, fun _ _ => none⟩

/-! Helper lemmas shared by the claim theorems. -/

theorem takeWhile_all (p : Nat → Bool) (l : List Nat) (h : ∀ x ∈ l, p x = true) :
    l.takeWhile p = l := by
  induction l with
  | nil => rfl
  | cons b t ih =>
    simp only [List.takeWhile]
    rw [h b (by simp)]
    simp only [List.cons.injEq, true_and]
    exact ih (fun x hx => h x (by simp [hx]))

theorem dropWhile_append_all (p : Nat → Bool) (l1 l2 : List Nat)
    (h : ∀ x ∈ l1, p x = true) : (l1 ++ l2).dropWhile p = l2.dropWhile p := by
  induction l1 with
  | nil => rfl
  | cons b t ih =>
    simp only [List.cons_append, List.dropWhile]
    rw [h b (by simp)]
    exact ih (fun x hx => h x (by simp [hx]))

theorem hex_to_string_length (buf : List Nat) : (hex_to_string buf).length = 2 * buf.length := by
  induction buf with
  | nil => rfl
  | cons b t ih =>
    simp only [hex_to_string, List.flatMap_cons, List.length_append, List.length_cons,
      List.length_nil] at ih ⊢
    omega

theorem fs_read_fs_write (f : List (List Nat × List Nat)) (k v : List Nat) :
    fs_read (fs_write f k v) k = some v := by
  induction f with
  | nil => simp [fs_write, fs_read]
  | cons e t ih =>
    obtain ⟨k', v'⟩ := e
    by_cases hk : k' = k
    · simp [fs_write, fs_read, hk]
    · simp only [fs_write, if_neg hk, fs_read]
      exact ih

theorem fs_write_fs_write (f : List (List Nat × List Nat)) (k v : List Nat) :
    fs_write (fs_write f k v) k v = fs_write f k v := by
  induction f with
  | nil => simp [fs_write]
  | cons e t ih =>
    obtain ⟨k', v'⟩ := e
    by_cases hk : k' = k
    · simp [fs_write, hk]
    · simp only [fs_write, if_neg hk]
      rw [ih]

theorem dec_bytes_range (n : Nat) : ∀ d ∈ dec_bytes n, 48 ≤ d ∧ d ≤ 57 := by
  induction n using Nat.strong_induction_on with
  | _ n ih =>
    rw [dec_bytes]
    split
    · intro d hd
      simp only [List.mem_singleton] at hd
      omega
    · intro d hd
      rw [List.mem_append] at hd
      rcases hd with hd | hd
      · exact ih (n / 10) (Nat.div_lt_self (by omega) (by omega)) d hd
      · simp only [List.mem_singleton] at hd
        have := Nat.mod_lt n (show 0 < 10 by omega)
        omega

theorem decompress_loop_ok (decode : List Nat → Option (List Nat)) (c d : List Nat)
    (hd : decode c = some d) :
    ∀ f destSize, 0 < destSize → d.length ≤ destSize * 2 ^ f →
      decompress_loop decode c destSize (f + 1) = some (some d) := by
  intro f
  induction f with
  | zero =>
    intro destSize hpos hle
    simp only [pow_zero, Nat.mul_one] at hle
    simp [decompress_loop, uncompress, hd, hle]
  | succ f ih =>
    intro destSize hpos hle
    by_cases hfit : d.length ≤ destSize
    · simp [decompress_loop, uncompress, hd, hfit]
    · have : decompress_loop decode c destSize (f + 1 + 1) =
          decompress_loop decode c (destSize * 2) (f + 1) := by
        simp [decompress_loop, uncompress, hd, hfit]
      rw [this]
      refine ih (destSize * 2) (by omega) ?_
      rw [pow_succ] at hle
      calc d.length ≤ destSize * (2 ^ f * 2) := hle
        _ = destSize * 2 * 2 ^ f := by ring

theorem decompress_data_big_fuel (decode : List Nat → Option (List Nat)) (c d : List Nat)
    (hd : decode c = some d) (hne : c ≠ []) (fuel : Nat) (hfuel : d.length + 1 ≤ fuel) :
    decompress_data decode c fuel = some (some d) := by
  obtain ⟨f, rfl⟩ : ∃ f, fuel = f + 1 := ⟨fuel - 1, by omega⟩
  unfold decompress_data
  have hcl : 0 < c.length := List.length_pos.mpr hne
  refine decompress_loop_ok decode c d hd f (c.length * 8) (by omega) ?_
  have h2 : d.length < 2 ^ d.length := Nat.lt_two_pow d.length
  have hmono : (2 : Nat) ^ d.length ≤ 2 ^ f := Nat.pow_le_pow_right (by omega) (by omega)
  have h8 : 1 * 2 ^ f ≤ c.length * 8 * 2 ^ f :=
    Nat.mul_le_mul_right _ (by omega)
  omega

/-! C5: pack header validation. -/

/-- C5: a pack image whose first four bytes are not "PACK" or whose
big-endian version field is not 2 is rejected by packfile_parse with a
nonzero exit code, and the object store is left exactly as it was: no
object is written. -/
theorem packfile_parse_header_reject (E : Ext) (rfuel : Nat) (data : List Nat) (s : Store)
    (h : data.take 4 ≠ packMagic ∨ read_uint32_be (data.drop 4) ≠ 2) :
    packfile_parse E rfuel data s = (1, s) := by
  unfold packfile_parse
  rcases h with h | h
  · rw [if_pos (Or.inr h)]
  · by_cases hl : data.length < 12 ∨ data.take 4 ≠ packMagic
    · rw [if_pos hl]
    · rw [if_neg hl, if_pos h]

/-- Witness for C5: a 12-byte image of zeros has neither the magic nor
version 2 and is rejected with the store untouched. -/
theorem packfile_parse_header_reject_witness :
    packfile_parse toyExt 0 [0, 0, 0, 0, 0, 0, 0, 0, 0, 0, 0, 0] ⟨[], []⟩ = (1, ⟨[], []⟩) :=
  packfile_parse_header_reject toyExt 0 _ _ (Or.inl (by decide))

/-! C6: want request builder. -/

/-- C6: for every 40-byte identifier without NUL bytes, the want builder
returns exactly "0032want " ++ id ++ "\n" ++ "0000" ++ "0009done\n",
reports length 63, and that byte sequence has length 63. -/
theorem pktline_build_want_spec (sha : List Nat) (h40 : sha.length = 40)
    (hnz : ∀ b ∈ sha, b ≠ 0) :
    pktline_build_want sha = (want_head ++ (sha ++ 10 :: want_tail), 63) ∧
    (want_head ++ (sha ++ 10 :: want_tail)).length = 63 := by
  have ht : sha.takeWhile (fun b => b != 0) = sha :=
    takeWhile_all _ _ (by intro x hx; simpa using hnz x hx)
  constructor
  · unfold pktline_build_want
    rw [ht, ← h40, List.take_length]
  · simp [want_head, want_tail, h40]

/-- Witness for C6: the spec scenario identifier
0123456789abcdef0123456789abcdef01234567 produces exactly the 63-byte
want body. -/
theorem pktline_build_want_spec_witness :
    pktline_build_want
        [48, 49, 50, 51, 52, 53, 54, 55, 56, 57, 97, 98, 99, 100, 101, 102,
         48, 49, 50, 51, 52, 53, 54, 55, 56, 57, 97, 98, 99, 100, 101, 102,
         48, 49, 50, 51, 52, 53, 54, 55] =
      (want_head ++
        ([48, 49, 50, 51, 52, 53, 54, 55, 56, 57, 97, 98, 99, 100, 101, 102,
          48, 49, 50, 51, 52, 53, 54, 55, 56, 57, 97, 98, 99, 100, 101, 102,
          48, 49, 50, 51, 52, 53, 54, 55] ++ 10 :: want_tail), 63) ∧
    (want_head ++
      ([48, 49, 50, 51, 52, 53, 54, 55, 56, 57, 97, 98, 99, 100, 101, 102,
        48, 49, 50, 51, 52, 53, 54, 55, 56, 57, 97, 98, 99, 100, 101, 102,
        48, 49, 50, 51, 52, 53, 54, 55] ++ 10 :: want_tail)).length = 63 :=
  pktline_build_want_spec _ (by decide) (by decide)

/-! C9: termination of the bulk inflate retry loop. -/

/-- C9: for every decoder semantics in which the empty byte sequence is
not a valid stream (true of zlib, whose streams carry a 2-byte header)
and every input, the decompress_data retry loop settles after finitely
many iterations: beyond some fuel bound it always returns the decoded
bytes of the input, or the error outcome for an invalid stream. -/
theorem decompress_data_terminates (decode : List Nat → Option (List Nat)) (c : List Nat)
    (hempty : decode [] = none) :
    ∃ n, ∀ m, n ≤ m → decompress_data decode c m = some (decode c) := by
  cases hd : decode c with
  | none =>
    refine ⟨1, fun m hm => ?_⟩
    obtain ⟨m', rfl⟩ : ∃ m', m = m' + 1 := ⟨m - 1, by omega⟩
    simp [decompress_data, decompress_loop, uncompress, hd]
  | some d =>
    have hne : c ≠ [] := by
      intro h0
      rw [h0, hempty] at hd
      exact Option.noConfusion hd
    exact ⟨d.length + 1, fun m hm => decompress_data_big_fuel decode c d hd hne m hm⟩

/-- Witness for C9: with a decoder that rejects everything, the loop on
input [5] settles (at fuel 1) on the error outcome. -/
theorem decompress_data_terminates_witness :
    ∃ n, ∀ m, n ≤ m →
      decompress_data (fun _ => none) [5] m = some ((fun (_ : List Nat) => none) [5]) :=
  decompress_data_terminates (fun _ => none) [5] rfl

/-! C2: identifier function and idempotent write. -/

theorem object_write_eq (E : Ext) (data : List Nat) (s : Store)
    (hsha : (E.sha1 data).length = 20) (hne : data ≠ []) :
    object_write E data s =
      (some (hex_to_string (E.sha1 data)),
       ⟨if (git_objects_dir ++ 47 :: (hex_to_string (E.sha1 data)).take 2) ∈ s.dirs
           then s.dirs
           else (git_objects_dir ++ 47 :: (hex_to_string (E.sha1 data)).take 2) :: s.dirs,
        fs_write s.files
          (git_objects_dir ++ 47 :: (hex_to_string (E.sha1 data)).take 2 ++
            47 :: (hex_to_string (E.sha1 data)).drop 2)
          (E.comp data)⟩) := by
  have h40 : (hex_to_string (E.sha1 data)).length = 40 := by
    rw [hex_to_string_length, hsha]
  by_cases hm : (git_objects_dir ++ 47 :: (hex_to_string (E.sha1 data)).take 2) ∈ s.dirs <;>
    simp [object_write, object_path, compress_data, h40, hne, hm]

theorem hex_to_string_chars (l : List Nat) (h : ∀ b ∈ l, b < 256) :
    ∀ b ∈ hex_to_string l, (48 ≤ b ∧ b ≤ 57) ∨ (97 ≤ b ∧ b ≤ 102) := by
  intro b hb
  simp only [hex_to_string, List.mem_flatMap, List.mem_cons, List.mem_singleton,
    List.not_mem_nil, or_false] at hb
  obtain ⟨x, hx, hb⟩ := hb
  have hx256 := h x hx
  have hdiv : x / 16 < 16 := by omega
  have hmod : x % 16 < 16 := by omega
  rcases hb with rfl | rfl <;> (simp only [hex_digit]; split <;> omega)

/-- C2: for every nonempty framed byte sequence, object_write returns
exactly the 40-character lowercase hex of the SHA-1 digest of those
bytes, and writing the same bytes a second time returns the same
identifier, succeeds, and leaves the on-disk store bit-identical. -/
theorem object_write_identifier_idempotent (E : Ext) (data : List Nat) (s : Store)
    (hsha : (E.sha1 data).length = 20) (hbyte : ∀ b ∈ E.sha1 data, b < 256)
    (hne : data ≠ []) :
    ∃ s1, object_write E data s = (some (hex_to_string (E.sha1 data)), s1) ∧
      (hex_to_string (E.sha1 data)).length = 40 ∧
      (∀ b ∈ hex_to_string (E.sha1 data), (48 ≤ b ∧ b ≤ 57) ∨ (97 ≤ b ∧ b ≤ 102)) ∧
      object_write E data s1 = (some (hex_to_string (E.sha1 data)), s1) := by
  refine ⟨⟨if (git_objects_dir ++ 47 :: (hex_to_string (E.sha1 data)).take 2) ∈ s.dirs
              then s.dirs
              else (git_objects_dir ++ 47 :: (hex_to_string (E.sha1 data)).take 2) :: s.dirs,
           fs_write s.files
             (git_objects_dir ++ 47 :: (hex_to_string (E.sha1 data)).take 2 ++
               47 :: (hex_to_string (E.sha1 data)).drop 2)
             (E.comp data)⟩,
         object_write_eq E data s hsha hne, ?_, hex_to_string_chars _ hbyte, ?_⟩
  · rw [hex_to_string_length, hsha]
  · rw [object_write_eq E data _ hsha hne]
    have hmem : (git_objects_dir ++ 47 :: (hex_to_string (E.sha1 data)).take 2) ∈
        (if (git_objects_dir ++ 47 :: (hex_to_string (E.sha1 data)).take 2) ∈ s.dirs
            then s.dirs
            else (git_objects_dir ++ 47 :: (hex_to_string (E.sha1 data)).take 2) :: s.dirs) := by
      split
      · assumption
      · exact List.mem_cons_self _ _
    simp only [hmem, if_pos, fs_write_fs_write]

/-- Witness for C2: a concrete digest oracle of twenty zero bytes on the
two-byte input [104, 105]. -/
theorem object_write_identifier_idempotent_witness :
    ∃ s1, object_write
        ⟨fun _ => [0, 0, 0, 0, 0, 0, 0, 0, 0, 0, 0, 0, 0, 0, 0, 0, 0, 0, 0, 0],
         fun x => x, fun _ => none, fun _ _ => none⟩
        [104, 105] ⟨[], []⟩ =
        (some (hex_to_string
          [0, 0, 0, 0, 0, 0, 0, 0, 0, 0, 0, 0, 0, 0, 0, 0, 0, 0, 0, 0]), s1) ∧
      (hex_to_string [0, 0, 0, 0, 0, 0, 0, 0, 0, 0, 0, 0, 0, 0, 0, 0, 0, 0, 0, 0]).length = 40 ∧
      (∀ b ∈ hex_to_string [0, 0, 0, 0, 0, 0, 0, 0, 0, 0, 0, 0, 0, 0, 0, 0, 0, 0, 0, 0],
        (48 ≤ b ∧ b ≤ 57) ∨ (97 ≤ b ∧ b ≤ 102)) ∧
      object_write
        ⟨fun _ => [0, 0, 0, 0, 0, 0, 0, 0, 0, 0, 0, 0, 0, 0, 0, 0, 0, 0, 0, 0],
         fun x => x, fun _ => none, fun _ _ => none⟩
        [104, 105] s1 =
        (some (hex_to_string
          [0, 0, 0, 0, 0, 0, 0, 0, 0, 0, 0, 0, 0, 0, 0, 0, 0, 0, 0, 0]), s1) :=
  object_write_identifier_idempotent _ [104, 105] ⟨[], []⟩ (by decide) (by decide) (by decide)

/-! C1: object round-trip through the store. -/

theorem takeWhile_append_all (p : Nat → Bool) (l1 l2 : List Nat)
    (h : ∀ x ∈ l1, p x = true) : (l1 ++ l2).takeWhile p = l1 ++ l2.takeWhile p := by
  induction l1 with
  | nil => rfl
  | cons b t ih =>
    simp only [List.cons_append, List.takeWhile]
    rw [h b (by simp)]
    simp only [List.cons.injEq, true_and]
    exact ih (fun x hx => h x (by simp [hx]))

theorem parse_base_type_frame (K B : List Nat) (hKlen : K.length ≤ 6)
    (hK32 : ∀ x ∈ K, x ≠ 32) :
    parse_base_type (frame_object K B) = some K := by
  have hp : ∀ x ∈ K, (x != 32) = true := by
    intro x hx
    simpa using hK32 x hx
  have htake : (frame_object K B).take 32 =
      K ++ (32 :: (dec_bytes B.length ++ 0 :: B)).take (32 - K.length) := by
    unfold frame_object
    rw [List.take_append_eq_append_take, List.take_of_length_le (by omega)]
  obtain ⟨m, hm⟩ : ∃ m, 32 - K.length = m + 1 := ⟨31 - K.length, by omega⟩
  have hmem : (32 : Nat) ∈ (frame_object K B).take 32 := by
    rw [htake, hm]
    simp [List.take_succ_cons]
  have htw : ((frame_object K B).take 32).takeWhile (fun b => b != 32) = K := by
    rw [htake, hm, List.take_succ_cons, takeWhile_append_all _ _ _ hp]
    simp [List.takeWhile]
  unfold parse_base_type
  rw [if_pos hmem, htw]
  have hmin : min K.length 15 = K.length := by omega
  rw [hmin]
  unfold frame_object
  rw [List.take_append_eq_append_take, List.take_of_length_le (le_refl _), Nat.sub_self]
  simp

theorem frame_body (K B : List Nat) (hK0 : ∀ x ∈ K, x ≠ 0) :
    ((frame_object K B).dropWhile (fun b => b != 0)).tail = B := by
  have hp : ∀ x ∈ K, (x != 0) = true := by
    intro x hx
    simpa using hK0 x hx
  have hd : ∀ x ∈ dec_bytes B.length, (x != 0) = true := by
    intro x hx
    have := dec_bytes_range B.length x hx
    simp only [bne_iff_ne, ne_eq]
    omega
  unfold frame_object
  rw [dropWhile_append_all _ _ _ hp, List.dropWhile_cons]
  simp only [show ((32 : Nat) != 0) = true from rfl, if_true]
  rw [dropWhile_append_all _ _ _ hd, List.dropWhile_cons]
  simp

/-- C1: for every body B, every kind word K in {blob, tree, commit, tag}
and every prior store state, writing the framed object frame(K, B) and
reading back the returned identifier yields the framed bytes, whose body
view is exactly B and whose kind word parses back to exactly K — under
the zlib contract that decompression inverts compression on this object
and given enough fuel for the bounded retry loop. -/
theorem object_roundtrip (E : Ext) (K B : List Nat) (s : Store) (fuel : Nat)
    (hK : K = kind_blob ∨ K = kind_tree ∨ K = kind_commit ∨ K = kind_tag)
    (hsha : (E.sha1 (frame_object K B)).length = 20)
    (hinv : E.decode (E.comp (frame_object K B)) = some (frame_object K B))
    (hempty : E.decode [] = none)
    (hfuel : (frame_object K B).length + 1 ≤ fuel) :
    ∃ s1,
      object_write E (frame_object K B) s =
        (some (hex_to_string (E.sha1 (frame_object K B))), s1) ∧
      object_read E fuel (hex_to_string (E.sha1 (frame_object K B))) s1 =
        some (frame_object K B, B) ∧
      parse_base_type (frame_object K B) = some K := by
  have hKlen : K.length ≤ 6 := by rcases hK with rfl | rfl | rfl | rfl <;> decide
  have hK32 : ∀ x ∈ K, x ≠ 32 := by rcases hK with rfl | rfl | rfl | rfl <;> decide
  have hK0 : ∀ x ∈ K, x ≠ 0 := by rcases hK with rfl | rfl | rfl | rfl <;> decide
  have hfne : frame_object K B ≠ [] := by simp [frame_object]
  have h40 : (hex_to_string (E.sha1 (frame_object K B))).length = 40 := by
    rw [hex_to_string_length, hsha]
  have hcne : E.comp (frame_object K B) ≠ [] := by
    intro h0
    rw [h0, hempty] at hinv
    exact Option.noConfusion hinv
  refine ⟨_, object_write_eq E _ s hsha hfne, ?_, parse_base_type_frame K B hKlen hK32⟩
  unfold object_read read_git_blob_file object_path
  rw [if_pos h40]
  show (match fs_read _ _ with
    | none => none
    | some compressed => _) = _
  rw [fs_read_fs_write]
  show (match decompress_data E.decode (E.comp (frame_object K B)) fuel with
    | some (some raw) => _
    | _ => _) = _
  rw [decompress_data_big_fuel E.decode _ _ hinv hcne fuel hfuel]
  show (if (0 : Nat) ∈ frame_object K B then _ else _) = _
  rw [if_pos (show (0 : Nat) ∈ frame_object K B by simp [frame_object]),
    frame_body K B hK0]

/-- Witness for C1: kind blob, body [104, 105], a zero digest oracle and
a cons-based zlib model whose decode inverts its encode. -/
theorem object_roundtrip_witness :
    ∃ s1,
      object_write
        ⟨fun _ => [0, 0, 0, 0, 0, 0, 0, 0, 0, 0, 0, 0, 0, 0, 0, 0, 0, 0, 0, 0],
         fun x => 0 :: x,
         fun c => match c with | [] => none | _ :: t => some t,
         fun _ _ => none⟩
        (frame_object kind_blob [104, 105]) ⟨[], []⟩ =
        (some (hex_to_string
          [0, 0, 0, 0, 0, 0, 0, 0, 0, 0, 0, 0, 0, 0, 0, 0, 0, 0, 0, 0]), s1) ∧
      object_read
        ⟨fun _ => [0, 0, 0, 0, 0, 0, 0, 0, 0, 0, 0, 0, 0, 0, 0, 0, 0, 0, 0, 0],
         fun x => 0 :: x,
         fun c => match c with | [] => none | _ :: t => some t,
         fun _ _ => none⟩
        100
        (hex_to_string [0, 0, 0, 0, 0, 0, 0, 0, 0, 0, 0, 0, 0, 0, 0, 0, 0, 0, 0, 0]) s1 =
        some (frame_object kind_blob [104, 105], [104, 105]) ∧
      parse_base_type (frame_object kind_blob [104, 105]) = some kind_blob :=
  object_roundtrip _ kind_blob [104, 105] ⟨[], []⟩ 100 (Or.inl rfl) rfl rfl rfl
    (by simp [frame_object, dec_bytes, kind_blob])

/-! C8: what object_read validates on the stored framing. -/

/-- Counterexample to C8 as stated: a stored object whose decompressed
bytes are [120, 0, 121] — containing no space and no known kind word —
is read back successfully (raw and body view returned) instead of being
rejected with a header error. -/
theorem object_read_accepts_bad_header :
    object_read
      ⟨fun _ => [], fun x => x,
       fun c => if c = [9] then some [120, 0, 121] else none,
       fun _ _ => none⟩
      1
      [97, 97, 97, 97, 97, 97, 97, 97, 97, 97, 97, 97, 97, 97, 97, 97, 97, 97, 97, 97,
       97, 97, 97, 97, 97, 97, 97, 97, 97, 97, 97, 97, 97, 97, 97, 97, 97, 97, 97, 97]
      ⟨[], [([46, 103, 105, 116, 47, 111, 98, 106, 101, 99, 116, 115, 47, 97, 97, 47,
             97, 97, 97, 97, 97, 97, 97, 97, 97, 97, 97, 97, 97, 97, 97, 97, 97, 97,
             97, 97, 97, 97, 97, 97, 97, 97, 97, 97, 97, 97, 97, 97, 97, 97, 97, 97,
             97, 97], [9])]⟩ =
      some ([120, 0, 121], [121]) ∧
    (32 : Nat) ∉ [120, 0, 121] := by
  constructor
  · rfl
  · decide

/-- C8 (amended): once the stored file is slurped and decompressed,
object_read splits at the first NUL and succeeds exactly when the
decompressed bytes contain a NUL, returning the bytes after it as the
body; the kind word and declared size are never examined, so a missing
space or unknown kind word is not rejected. -/
theorem object_read_nul_split_only (E : Ext) (fuel : Nat) (id : List Nat) (s : Store)
    (c raw : List Nat)
    (hfile : read_git_blob_file id s = some c)
    (hdec : decompress_data E.decode c fuel = some (some raw)) :
    ((∃ r, object_read E fuel id s = some r) ↔ 0 ∈ raw) ∧
    (0 ∈ raw →
      object_read E fuel id s = some (raw, (raw.dropWhile (fun b => b != 0)).tail)) := by
  unfold object_read
  rw [hfile]
  dsimp only
  rw [hdec]
  by_cases h0 : (0 : Nat) ∈ raw
  · simp [h0]
  · simp [h0]

/-- Witness for the amended C8 at the counterexample instance. -/
theorem object_read_nul_split_only_witness :
    ((∃ r, object_read
        ⟨fun _ => [], fun x => x,
         fun c => if c = [9] then some [120, 0, 121] else none,
         fun _ _ => none⟩
        1
        [97, 97, 97, 97, 97, 97, 97, 97, 97, 97, 97, 97, 97, 97, 97, 97, 97, 97, 97, 97,
         97, 97, 97, 97, 97, 97, 97, 97, 97, 97, 97, 97, 97, 97, 97, 97, 97, 97, 97, 97]
        ⟨[], [([46, 103, 105, 116, 47, 111, 98, 106, 101, 99, 116, 115, 47, 97, 97, 47,
               97, 97, 97, 97, 97, 97, 97, 97, 97, 97, 97, 97, 97, 97, 97, 97, 97, 97,
               97, 97, 97, 97, 97, 97, 97, 97, 97, 97, 97, 97, 97, 97, 97, 97, 97, 97,
               97, 97], [9])]⟩ = some r) ↔ (0 : Nat) ∈ [120, 0, 121]) ∧
    ((0 : Nat) ∈ [120, 0, 121] →
      object_read
        ⟨fun _ => [], fun x => x,
         fun c => if c = [9] then some [120, 0, 121] else none,
         fun _ _ => none⟩
        1
        [97, 97, 97, 97, 97, 97, 97, 97, 97, 97, 97, 97, 97, 97, 97, 97, 97, 97, 97, 97,
         97, 97, 97, 97, 97, 97, 97, 97, 97, 97, 97, 97, 97, 97, 97, 97, 97, 97, 97, 97]
        ⟨[], [([46, 103, 105, 116, 47, 111, 98, 106, 101, 99, 116, 115, 47, 97, 97, 47,
               97, 97, 97, 97, 97, 97, 97, 97, 97, 97, 97, 97, 97, 97, 97, 97, 97, 97,
               97, 97, 97, 97, 97, 97, 97, 97, 97, 97, 97, 97, 97, 97, 97, 97, 97, 97,
               97, 97], [9])]⟩ =
        some ([120, 0, 121], ([120, 0, 121].dropWhile (fun b => b != 0)).tail)) :=
  object_read_nul_split_only _ 1 _ _ [9] [120, 0, 121] rfl rfl

/-! C3: the delta source-size check. -/

/-- Counterexample to C3 as stated: a delta stream declaring source size
5 against an empty base (a mismatch, since the base body has length 0)
is not rejected as Corrupt — apply_delta succeeds. -/
theorem apply_delta_no_src_check :
    apply_delta [] [5, 0] = some [] ∧
    (read_var_int [5, 0]).1 = 5 ∧ ([] : List Nat).length ≠ 5 := by
  refine ⟨?_, by decide, by decide⟩
  simp [apply_delta, read_var_int, read_var_int_go, apply_delta_go]

/-- C3 (amended): apply_delta parses the first varint (src_size) but
discards it without comparing it to the base length: the outcome is a
function of the base and of the stream after the first varint alone, so
a source-size mismatch is never detected and never yields Corrupt. -/
theorem apply_delta_src_size_ignored (base d1 d2 : List Nat) (s1 s2 : Nat) (rest : List Nat)
    (h1 : read_var_int d1 = (s1, rest)) (h2 : read_var_int d2 = (s2, rest)) :
    apply_delta base d1 = apply_delta base d2 := by
  unfold apply_delta
  rw [h1, h2]

/-- Witness for the amended C3: streams [5, 0] and [3, 0] declare
different source sizes over the same instruction bytes and reconstruct
identically. -/
theorem apply_delta_src_size_ignored_witness :
    apply_delta [1] [5, 0] = apply_delta [1] [3, 0] :=
  apply_delta_src_size_ignored [1] [5, 0] [3, 0] 5 3 [0] rfl rfl

/-! C4: postcondition of delta application. -/

theorem apply_delta_go_copies_fst (base : List Nat) (tgt : Nat) (d acc : List Nat)
    (cps : List (Nat × Nat)) :
    (apply_delta_go_copies base tgt d acc cps).map Prod.fst = apply_delta_go base tgt d acc := by
  induction d, acc, cps using apply_delta_go_copies.induct base tgt with
  | case1 acc cps =>
    unfold apply_delta_go_copies apply_delta_go
    rfl
  | case2 cmd delta acc cps h80 hrc =>
    unfold apply_delta_go_copies apply_delta_go
    rw [if_pos h80, if_pos h80]
    split <;> simp_all
  | case3 cmd delta acc cps h80 offset size0 d6 hrc sz hb =>
    unfold apply_delta_go_copies apply_delta_go
    rw [if_pos h80, if_pos h80]
    split
    · simp_all
    · rename_i o2 s2 d62 heq
      rw [hrc] at heq
      simp only [Option.some.injEq, Prod.mk.injEq] at heq
      obtain ⟨rfl, rfl, rfl⟩ := heq
      have hb2 : (base.length < offset + if size0 = 0 then 65536 else size0) ∨
          tgt < acc.length + if size0 = 0 then 65536 else size0 := hb
      rw [if_pos hb2, if_pos hb2]
      rfl
  | case4 cmd delta acc cps h80 offset size0 d6 hrc sz hnb ih =>
    unfold apply_delta_go_copies apply_delta_go
    rw [if_pos h80, if_pos h80]
    split
    · simp_all
    · rename_i o2 s2 d62 heq
      rw [hrc] at heq
      simp only [Option.some.injEq, Prod.mk.injEq] at heq
      obtain ⟨rfl, rfl, rfl⟩ := heq
      have hnb2 : ¬((base.length < offset + if size0 = 0 then 65536 else size0) ∨
          tgt < acc.length + if size0 = 0 then 65536 else size0) := hnb
      rw [if_neg hnb2, if_neg hnb2]
      exact ih
  | case5 cmd delta acc cps h80 hpos hb =>
    unfold apply_delta_go_copies apply_delta_go
    rw [if_neg h80, if_neg h80, if_pos hpos, if_pos hpos, if_pos hb, if_pos hb]
    rfl
  | case6 cmd delta acc cps h80 hpos hnb ih =>
    unfold apply_delta_go_copies apply_delta_go
    rw [if_neg h80, if_neg h80, if_pos hpos, if_pos hpos, if_neg hnb, if_neg hnb]
    exact ih
  | case7 cmd delta acc cps h80 hpos ih =>
    unfold apply_delta_go_copies apply_delta_go
    rw [if_neg h80, if_neg h80, if_neg hpos, if_neg hpos]
    exact ih

theorem apply_delta_go_copies_length (base : List Nat) (tgt : Nat) (d acc : List Nat)
    (cps : List (Nat × Nat)) :
    ∀ out cs, acc.length ≤ tgt →
      apply_delta_go_copies base tgt d acc cps = some (out, cs) → out.length ≤ tgt := by
  induction d, acc, cps using apply_delta_go_copies.induct base tgt with
  | case1 acc cps =>
    intro out cs hacc h
    unfold apply_delta_go_copies at h
    simp only [Option.some.injEq, Prod.mk.injEq] at h
    rw [← h.1]
    exact hacc
  | case2 cmd delta acc cps h80 hrc =>
    intro out cs hacc h
    unfold apply_delta_go_copies at h
    rw [if_pos h80] at h
    split at h <;> simp_all
  | case3 cmd delta acc cps h80 offset size0 d6 hrc sz hb =>
    intro out cs hacc h
    unfold apply_delta_go_copies at h
    rw [if_pos h80] at h
    split at h
    · simp_all
    · rename_i o2 s2 d62 heq
      rw [hrc] at heq
      simp only [Option.some.injEq, Prod.mk.injEq] at heq
      obtain ⟨rfl, rfl, rfl⟩ := heq
      have hb2 : (base.length < offset + if size0 = 0 then 65536 else size0) ∨
          tgt < acc.length + if size0 = 0 then 65536 else size0 := hb
      rw [if_pos hb2] at h
      exact Option.noConfusion h
  | case4 cmd delta acc cps h80 offset size0 d6 hrc sz hnb ih =>
    intro out cs hacc h
    unfold apply_delta_go_copies at h
    rw [if_pos h80] at h
    split at h
    · simp_all
    · rename_i o2 s2 d62 heq
      rw [hrc] at heq
      simp only [Option.some.injEq, Prod.mk.injEq] at heq
      obtain ⟨rfl, rfl, rfl⟩ := heq
      have hnb2 : ¬((base.length < offset + if size0 = 0 then 65536 else size0) ∨
          tgt < acc.length + if size0 = 0 then 65536 else size0) := hnb
      rw [if_neg hnb2] at h
      refine ih out cs ?_ h
      have hsz : sz = (if size0 = 0 then 65536 else size0) := rfl
      rw [hsz, List.length_append]
      have hlen : (List.take (if size0 = 0 then 65536 else size0)
          (List.drop offset base)).length ≤ (if size0 = 0 then 65536 else size0) := by
        rw [List.length_take]
        omega
      push_neg at hnb2
      omega
  | case5 cmd delta acc cps h80 hpos hb =>
    intro out cs hacc h
    unfold apply_delta_go_copies at h
    rw [if_neg h80, if_pos hpos, if_pos hb] at h
    exact Option.noConfusion h
  | case6 cmd delta acc cps h80 hpos hnb ih =>
    intro out cs hacc h
    unfold apply_delta_go_copies at h
    rw [if_neg h80, if_pos hpos, if_neg hnb] at h
    refine ih out cs ?_ h
    have hlen : (delta.take cmd).length ≤ cmd := by
      rw [List.length_take]
      omega
    rw [List.length_append]
    push_neg at hnb
    omega
  | case7 cmd delta acc cps h80 hpos ih =>
    intro out cs hacc h
    unfold apply_delta_go_copies at h
    rw [if_neg h80, if_neg hpos] at h
    exact ih out cs hacc h

theorem apply_delta_go_copies_bounds (base : List Nat) (tgt : Nat) (d acc : List Nat)
    (cps : List (Nat × Nat)) :
    ∀ out cs, apply_delta_go_copies base tgt d acc cps = some (out, cs) →
      (∀ p ∈ cps, p.1 + (if p.2 = 0 then 65536 else p.2) ≤ base.length) →
      ∀ p ∈ cs, p.1 + (if p.2 = 0 then 65536 else p.2) ≤ base.length := by
  induction d, acc, cps using apply_delta_go_copies.induct base tgt with
  | case1 acc cps =>
    intro out cs h hcps
    unfold apply_delta_go_copies at h
    simp only [Option.some.injEq, Prod.mk.injEq] at h
    rw [← h.2]
    exact hcps
  | case2 cmd delta acc cps h80 hrc =>
    intro out cs h hcps
    unfold apply_delta_go_copies at h
    rw [if_pos h80] at h
    split at h <;> simp_all
  | case3 cmd delta acc cps h80 offset size0 d6 hrc sz hb =>
    intro out cs h hcps
    unfold apply_delta_go_copies at h
    rw [if_pos h80] at h
    split at h
    · simp_all
    · rename_i o2 s2 d62 heq
      rw [hrc] at heq
      simp only [Option.some.injEq, Prod.mk.injEq] at heq
      obtain ⟨rfl, rfl, rfl⟩ := heq
      have hb2 : (base.length < offset + if size0 = 0 then 65536 else size0) ∨
          tgt < acc.length + if size0 = 0 then 65536 else size0 := hb
      rw [if_pos hb2] at h
      exact Option.noConfusion h
  | case4 cmd delta acc cps h80 offset size0 d6 hrc sz hnb ih =>
    intro out cs h hcps
    unfold apply_delta_go_copies at h
    rw [if_pos h80] at h
    split at h
    · simp_all
    · rename_i o2 s2 d62 heq
      rw [hrc] at heq
      simp only [Option.some.injEq, Prod.mk.injEq] at heq
      obtain ⟨rfl, rfl, rfl⟩ := heq
      have hnb2 : ¬((base.length < offset + if size0 = 0 then 65536 else size0) ∨
          tgt < acc.length + if size0 = 0 then 65536 else size0) := hnb
      rw [if_neg hnb2] at h
      refine ih out cs h ?_
      intro p hp
      rw [List.mem_append] at hp
      rcases hp with hp | hp
      · exact hcps p hp
      · simp only [List.mem_singleton] at hp
        subst hp
        push_neg at hnb2
        exact hnb2.1
  | case5 cmd delta acc cps h80 hpos hb =>
    intro out cs h hcps
    unfold apply_delta_go_copies at h
    rw [if_neg h80, if_pos hpos, if_pos hb] at h
    exact Option.noConfusion h
  | case6 cmd delta acc cps h80 hpos hnb ih =>
    intro out cs h hcps
    unfold apply_delta_go_copies at h
    rw [if_neg h80, if_pos hpos, if_neg hnb] at h
    exact ih out cs h hcps
  | case7 cmd delta acc cps h80 hpos ih =>
    intro out cs h hcps
    unfold apply_delta_go_copies at h
    rw [if_neg h80, if_neg hpos] at h
    exact ih out cs h hcps

/-- Counterexample to C4 as stated: a delta stream declaring target size
5 with an empty instruction stream succeeds with a result of length 0,
not of the declared length. -/
theorem apply_delta_short_result :
    apply_delta [] [0, 5] = some [] ∧
    (read_var_int (read_var_int [0, 5]).2).1 = 5 ∧
    ([] : List Nat).length ≠ 5 := by
  refine ⟨?_, by decide, by decide⟩
  simp [apply_delta, read_var_int, read_var_int_go, apply_delta_go]

/-- C4 (amended): when apply_delta succeeds on base B with a stream
declaring target size T, the result length is at most T — it equals the
number of bytes written, and the instruction stream may legally end
before filling T — every write stays inside [0, T), and every executed
COPY, with a raw size field of zero reinterpreted as 0x10000, reads only
inside [0, |B|). -/
theorem apply_delta_postcondition (base delta out : List Nat)
    (h : apply_delta base delta = some out) :
    out.length ≤ (read_var_int (read_var_int delta).2).1 ∧
    ∃ cs, apply_delta_go_copies base (read_var_int (read_var_int delta).2).1
        (read_var_int (read_var_int delta).2).2 [] [] = some (out, cs) ∧
      ∀ p ∈ cs, p.1 + (if p.2 = 0 then 65536 else p.2) ≤ base.length := by
  unfold apply_delta at h
  rcases hrv1 : read_var_int delta with ⟨src, d1⟩
  rcases hrv2 : read_var_int d1 with ⟨tgt, d2⟩
  rw [hrv1] at h
  dsimp only at h ⊢
  rw [hrv2] at h
  dsimp only at h
  have hfst := apply_delta_go_copies_fst base tgt d2 [] []
  rw [h] at hfst
  cases hc : apply_delta_go_copies base tgt d2 [] [] with
  | none => rw [hc] at hfst; exact Option.noConfusion hfst
  | some pr =>
    obtain ⟨out2, cs⟩ := pr
    rw [hc] at hfst
    have hout : out2 = out := by simpa using hfst
    subst hout
    refine ⟨apply_delta_go_copies_length base tgt d2 [] [] out2 cs (by simp) hc,
            cs, rfl, apply_delta_go_copies_bounds base tgt d2 [] [] out2 cs hc (by simp)⟩

/-- Witness for the amended C4: base [7, 8], varints 2 and 2, one COPY
with offset byte 0 and size byte 2, reconstructing [7, 8]. -/
theorem apply_delta_postcondition_witness :
    ([7, 8] : List Nat).length ≤ (read_var_int (read_var_int [2, 2, 145, 0, 2]).2).1 ∧
    ∃ cs, apply_delta_go_copies [7, 8]
        (read_var_int (read_var_int [2, 2, 145, 0, 2]).2).1
        (read_var_int (read_var_int [2, 2, 145, 0, 2]).2).2 [] [] =
        some ([7, 8], cs) ∧
      ∀ p ∈ cs, p.1 + (if p.2 = 0 then 65536 else p.2) ≤ ([7, 8] : List Nat).length :=
  apply_delta_postcondition [7, 8] [2, 2, 145, 0, 2] [7, 8] (by
    unfold apply_delta
    rw [show read_var_int [2, 2, 145, 0, 2] = (2, [2, 145, 0, 2]) from rfl]
    dsimp only
    rw [show read_var_int [2, 145, 0, 2] = (2, [145, 0, 2]) from rfl]
    dsimp only
    rw [apply_delta_go]
    dsimp only
    rw [if_pos (show (145 &&& 128 : Nat) ≠ 0 by decide)]
    split
    · rename_i heq
      rw [show read_copy_args 145 [0, 2] = some (0, 2, []) from rfl] at heq
      exact Option.noConfusion heq
    · rename_i o2 s2 d62 heq
      rw [show read_copy_args 145 [0, 2] = some (0, 2, []) from rfl] at heq
      simp only [Option.some.injEq, Prod.mk.injEq] at heq
      obtain ⟨rfl, rfl, rfl⟩ := heq
      rw [if_neg (by decide)]
      rw [apply_delta_go]
      decide)

/-! C7: side-band strip and the PACK fallback. -/

theorem find_pack_of_mem : ∀ (R : List Nat) (i : Nat), (R.drop i).take 4 = packMagic →
    ∃ s, find_pack R = some s ∧ s.take 4 = packMagic := by
  intro R
  induction R with
  | nil =>
    intro i h
    rw [List.drop_nil] at h
    simp [packMagic] at h
  | cons b t ih =>
    intro i h
    unfold find_pack
    by_cases hp : (b :: t).take 4 = packMagic
    · rw [if_pos hp]
      exact ⟨b :: t, rfl, hp⟩
    · rw [if_neg hp]
      cases i with
      | zero =>
        rw [List.drop_zero] at h
        exact absurd h hp
      | succ j =>
        rw [List.drop_succ_cons] at h
        exact ih j h

/-- Counterexample to C7 as stated: a response consisting of one
channel-1 pkt-line whose payload is "xPACKy" contains the substring
"PACK", and pktline_strip_sideband succeeds on it, but the returned
bytes are the channel-1 payload "xPACKy", which does not begin with
"PACK". -/
theorem strip_sideband_not_pack_prefix :
    pktline_strip_sideband [48, 48, 48, 98, 1, 120, 80, 65, 67, 75, 121] =
      some [120, 80, 65, 67, 75, 121] ∧
    ([48, 48, 48, 98, 1, 120, 80, 65, 67, 75, 121].drop 6).take 4 = packMagic ∧
    [120, 80, 65, 67, 75, 121].take 4 ≠ packMagic := by
  refine ⟨?_, by decide, by decide⟩
  simp [pktline_strip_sideband, strip_loop, hex4_to_int, hex_digit_val]

/-- C7 (amended): whenever the ASCII substring "PACK" occurs in the
response, pktline_strip_sideband succeeds; and whenever the side-band
scan collected no channel-1 payload, the returned bytes begin with
"PACK" (the fallback scan).  When channel-1 payload was collected, that
payload is returned as is and need not begin with "PACK". -/
theorem strip_sideband_finds_pack (R : List Nat) (i : Nat)
    (h : (R.drop i).take 4 = packMagic) :
    ∃ out, pktline_strip_sideband R = some out ∧
      (strip_loop R [] = [] → out.take 4 = packMagic) := by
  unfold pktline_strip_sideband
  by_cases ho : (strip_loop R []).length > 0
  · refine ⟨strip_loop R [], if_pos ho, fun hnil => ?_⟩
    rw [hnil] at ho
    simp at ho
  · obtain ⟨s, hf, hp⟩ := find_pack_of_mem R i h
    refine ⟨s, ?_, fun _ => hp⟩
    rw [if_neg ho, hf]

/-- Witness for the amended C7 at the counterexample response, where the
"PACK" bytes occur at offset 6. -/
theorem strip_sideband_finds_pack_witness :
    ∃ out, pktline_strip_sideband [48, 48, 48, 98, 1, 120, 80, 65, 67, 75, 121] =
        some out ∧
      (strip_loop [48, 48, 48, 98, 1, 120, 80, 65, 67, 75, 121] [] = [] →
        out.take 4 = packMagic) :=
  strip_sideband_finds_pack _ 6 (by decide)

/-! C10: working-directory restoration in clone. -/

/-- Counterexample to C10 as stated: with the target directory created
and entered but init_git failing, clone_repo returns exit code 1 while
the working directory is still the target directory, not the original
one. -/
theorem clone_error_leaves_cwd :
    clone_repo toyExt ⟨true, true, true, false, none, none, true⟩ 0 0 [100] [99] ⟨[], []⟩ =
      (1, [100], ⟨[], []⟩, []) ∧ ([100] : List Nat) ≠ [99] :=
  ⟨rfl, by decide⟩

/-- C10 (amended): clone_repo restores the original working directory
exactly on the success path: every invocation either returns exit code 0
with the working directory restored to the original, or returns exit
code 1 (and, as the counterexample shows, an error after the initial
chdir leaves the process in the target directory). -/
theorem clone_cwd_on_success (E : Ext) (env : CloneEnv) (rfuel cfuel : Nat)
    (dir cwd0 : List Nat) (s : Store) :
    ((clone_repo E env rfuel cfuel dir cwd0 s).1 = 0 ∧
      (clone_repo E env rfuel cfuel dir cwd0 s).2.1 = cwd0) ∨
    (clone_repo E env rfuel cfuel dir cwd0 s).1 = 1 := by
  unfold clone_repo
  repeat' split
  all_goals simp_all

end GitC
